import Mathlib

/-!
Shallow embedding of the raster-editing core of the image-background-removal
application (source: `src/components/ImageWorkspace.tsx`, `src/App.tsx`,
`src/services/geminiService.ts`).

Pixels are RGBA quadruplets with channels in 0..255.  A canvas is modelled
as a `Buffer`: a width, a height and a flat list of pixels (row-major).
All layers of one session share the same dimensions, so per-pixel drawing
operations are modelled over the flat pixel index.

Canvas 2D compositing (`source-over`, `destination-out`, `globalAlpha`) is
modelled with exact natural-number arithmetic using floor division by 255,
mirroring the Porter–Duff equations the HTML canvas implements.
-/

/-- One RGBA pixel, channels 0..255. -/
structure Rgba where
  r : Nat
  g : Nat
  b : Nat
  a : Nat
deriving DecidableEq, Repr

/-- The fully transparent pixel, the state of a freshly created or cleared
canvas pixel. -/
def Rgba.clear : Rgba := ⟨0, 0, 0, 0⟩

/-- A canvas raster: width, height and a flat row-major pixel list. -/
structure Buffer where
  width : Nat
  height : Nat
  data : List Rgba
deriving DecidableEq, Repr

/-- Pixel at flat index `i` (transparent outside the raster). -/
def Buffer.pixAt (b : Buffer) (i : Nat) : Rgba :=
  b.data.getD i Rgba.clear

/-- `document.createElement('canvas')` with given dimensions: a fully
transparent raster. -/
def Buffer.create (w h : Nat) : Buffer :=
  ⟨w, h, List.replicate (w * h) Rgba.clear⟩

/-- `ctx.clearRect(0, 0, width, height)` over the whole canvas: every pixel
becomes transparent, dimensions are kept. -/
def Buffer.clearAll (b : Buffer) : Buffer :=
  { b with data := List.replicate b.data.length Rgba.clear }

/-- Porter–Duff `source-over` on straight (non-premultiplied) RGBA with
0..255 integer channels: the result alpha is `asrc + adst*(255-asrc)/255`
and each colour channel is the alpha-weighted average of the two colours. -/
def sourceOverPix (src dst : Rgba) : Rgba :=
  let wdst := dst.a * (255 - src.a) / 255
  let aout := src.a + wdst
  if aout = 0 then Rgba.clear
  else
    ⟨(src.r * src.a + dst.r * wdst) / aout,
     (src.g * src.a + dst.g * wdst) / aout,
     (src.b * src.a + dst.b * wdst) / aout,
     aout⟩

/-- Porter–Duff `destination-out`: the destination is kept only where the
source is transparent; the result alpha is `adst*(255-asrc)/255` and the
colour is the destination colour (a pixel whose alpha reaches 0 reads back
as all zeroes, as `getImageData` does on a premultiplied store). -/
def destOutPix (dst src : Rgba) : Rgba :=
  let aout := dst.a * (255 - src.a) / 255
  if aout = 0 then Rgba.clear else ⟨dst.r, dst.g, dst.b, aout⟩

/-- `ctx.globalAlpha = 0.6` applied to a source pixel: its alpha is scaled
by 3/5 before compositing. -/
def scaleAlpha60 (p : Rgba) : Rgba :=
  { p with a := p.a * 3 / 5 }

/-- `ctx.drawImage(src, 0, 0)` under a per-pixel blend `f dstPix srcPix`:
every destination pixel is combined with the source pixel of the same flat
index (the layers of a session share one geometry).  The destination keeps
its dimensions and pixel count. -/
def blendWith (f : Rgba → Rgba → Rgba) (dst src : Buffer) : Buffer :=
  { dst with
    data := (List.range dst.data.length).map
      (fun i => f (dst.pixAt i) (src.pixAt i)) }

/-- `drawImage` with `globalCompositeOperation = 'source-over'`. -/
def drawSourceOver (dst src : Buffer) : Buffer :=
  blendWith (fun d s => sourceOverPix s d) dst src

/-- `drawImage` with `globalCompositeOperation = 'destination-out'`. -/
def drawDestOut (dst src : Buffer) : Buffer :=
  blendWith destOutPix dst src

/-- `drawImage` with `source-over` and `globalAlpha = 0.6` (the red-mask
overlay of the editing mode). -/
def drawOverlay60 (dst src : Buffer) : Buffer :=
  blendWith (fun d s => sourceOverPix (scaleAlpha60 s) d) dst src

/-- A mask (or any layer) is blank when every pixel has alpha 0. -/
def Buffer.isBlank (b : Buffer) : Bool :=
  b.data.all (fun p => p.a == 0)

-- Basic raster lemmas ------------------------------------------------------

theorem Buffer.pixAt_lt {b : Buffer} {i : Nat} (h : i < b.data.length) :
    ∀ d, b.pixAt i = b.data.getD i d := by
  intro d
  simp [Buffer.pixAt, List.getD_eq_getElem?_getD, List.getElem?_eq_getElem h]

theorem blendWith_length (f : Rgba → Rgba → Rgba) (dst src : Buffer) :
    (blendWith f dst src).data.length = dst.data.length := by
  simp [blendWith]

theorem blendWith_width (f : Rgba → Rgba → Rgba) (dst src : Buffer) :
    (blendWith f dst src).width = dst.width := rfl

theorem blendWith_height (f : Rgba → Rgba → Rgba) (dst src : Buffer) :
    (blendWith f dst src).height = dst.height := rfl

theorem blendWith_pixAt (f : Rgba → Rgba → Rgba) (dst src : Buffer)
    (i : Nat) (h : i < dst.data.length) :
    (blendWith f dst src).pixAt i = f (dst.pixAt i) (src.pixAt i) := by
  simp [blendWith, Buffer.pixAt, List.getD_eq_getElem?_getD,
    List.getElem?_map, List.getElem?_range, h]

theorem clearAll_length (b : Buffer) :
    b.clearAll.data.length = b.data.length := by
  simp [Buffer.clearAll]

theorem clearAll_pixAt (b : Buffer) (i : Nat) (h : i < b.data.length) :
    b.clearAll.pixAt i = Rgba.clear := by
  simp [Buffer.clearAll, Buffer.pixAt, List.getD_eq_getElem?_getD,
    List.getElem?_replicate, h]

theorem clearAll_isBlank (b : Buffer) : b.clearAll.isBlank = true := by
  simp [Buffer.clearAll, Buffer.isBlank, List.all_eq_true, List.mem_replicate]
  right
  rfl

-- The edit session ---------------------------------------------------------

/-- The session state held by `ImageWorkspace`: the committed base layer
(`baseLayerRef`), the in-progress red mask (`maskLayerRef`) and the undo
history of base snapshots (`historyRef`), oldest first. -/
structure Session where
  base : Buffer
  mask : Buffer
  history : List Buffer
deriving DecidableEq

/-- Initialization effect (ImageWorkspace.tsx lines 79-118): the base layer
is a fresh canvas with the original image drawn on it, the mask layer is a
fresh transparent canvas of the same size, and the history is reset to a
single snapshot of the base. -/
def initSession (orig : Buffer) : Session :=
  let base := drawSourceOver (Buffer.create orig.width orig.height) orig
  { base := base
    mask := Buffer.create orig.width orig.height
    history := [base] }

/-- Auto-remove effect (ImageWorkspace.tsx lines 154-179).  When the
trigger counter is non-zero: the base canvas is cleared, the original image
is redrawn onto it, `removeBackgroundSmart` (abstracted as `seg`, taking
the current tolerance and smoothing) is applied in place, the mask is
cleared, and the history is replaced by the single snapshot of the new
base. -/
def autoRemoveStep (seg : Nat → Nat → Buffer → Buffer)
    (tolerance smoothing : Nat) (orig : Buffer) (triggerAutoRemove : Nat)
    (s : Session) : Session :=
  if triggerAutoRemove = 0 then s
  else
    let newBase := seg tolerance smoothing (drawSourceOver s.base.clearAll orig)
    { base := newBase
      mask := s.mask.clearAll
      history := [newBase] }

/-- Undo effect (ImageWorkspace.tsx lines 182-203).  When the trigger
counter is non-zero and the history has more than one entry: the topmost
snapshot is popped and the base is restored (`putImageData`) from the new
topmost snapshot.  The mask is not touched. -/
def undoStep (triggerUndo : Nat) (s : Session) : Session :=
  if triggerUndo = 0 then s
  else if 1 < s.history.length then
    let h := s.history.dropLast
    { s with base := h.getLast?.getD s.base, history := h }
  else s

/-- Manual-apply (commit) effect (ImageWorkspace.tsx lines 206-228).  When
the trigger counter is non-zero: the mask is drawn onto the base with
`destination-out`, the mask is cleared, the new base snapshot is pushed
onto the history, and if the history then exceeds 20 entries its oldest
entry is shifted off. -/
def manualApplyStep (triggerManualApply : Nat) (s : Session) : Session :=
  if triggerManualApply = 0 then s
  else
    let newBase := drawDestOut s.base s.mask
    let pushed := s.history ++ [newBase]
    { base := newBase
      mask := s.mask.clearAll
      history := if 20 < pushed.length then pushed.tail else pushed }

/-- AI-override effect (ImageWorkspace.tsx lines 127-151).  When an
override image is present: the base canvas is cleared and the incoming
image is drawn scaled to the base canvas's *current* dimensions
(`drawImage(img, 0, 0, w, h)`, with `scale` abstracting the browser's
raster scaling), the mask is cleared, and the history is replaced by the
single snapshot of the new base.  The base canvas is never resized. -/
def aiOverrideStep (scale : Buffer → Nat → Nat → Buffer)
    (processedImageOverride : Option Buffer) (s : Session) : Session :=
  match processedImageOverride with
  | none => s
  | some img =>
      let newBase :=
        drawSourceOver s.base.clearAll (scale img s.base.width s.base.height)
      { base := newBase
        mask := s.mask.clearAll
        history := [newBase] }

/-- Nearest-neighbour raster scaling, a deterministic executable stand-in
for the browser's `drawImage` scaling (whose interpolation is
implementation-defined; no claim depends on the interpolated colours, only
on the produced dimensions). -/
def scaleNearest (src : Buffer) (w h : Nat) : Buffer :=
  ⟨w, h,
    (List.range (w * h)).map (fun i =>
      let x := i % w
      let y := i / w
      src.pixAt (y * src.height / h * src.width + x * src.width / w))⟩

/-- One user/UI event acting on a session, as implemented by the four
effect hooks plus mask painting (`drawOnMask`, whose antialiased arc
rasterisation is abstracted as: the mask is replaced by some buffer). -/
inductive Step : Session → Session → Prop where
  | paint (s : Session) (m : Buffer) : Step s { s with mask := m }
  | autoRemove (s : Session) (seg : Nat → Nat → Buffer → Buffer)
      (tolerance smoothing : Nat) (orig : Buffer) (t : Nat) :
      Step s (autoRemoveStep seg tolerance smoothing orig t s)
  | undo (s : Session) (t : Nat) : Step s (undoStep t s)
  | commit (s : Session) (t : Nat) : Step s (manualApplyStep t s)
  | aiOverride (s : Session) (scale : Buffer → Nat → Nat → Buffer)
      (o : Option Buffer) : Step s (aiOverrideStep scale o s)

/-- Session states reachable from loading some original image and then
performing any sequence of events. -/
inductive Reachable : Session → Prop where
  | init (orig : Buffer) : Reachable (initSession orig)
  | step {s s' : Session} : Reachable s → Step s s' → Reachable s'

-- The display compositor ---------------------------------------------------

/-- The canvases touched by `renderCanvas`: the on-screen display canvas
and the two backing layers it reads from. -/
structure CanvasState where
  display : Buffer
  base : Buffer
  mask : Buffer
deriving DecidableEq

/-- `renderCanvas` (ImageWorkspace.tsx lines 46-76): clear the display,
draw the base layer with `source-over`, then draw the mask layer either
with `destination-out` (when `manualMaskPreview` is true, the
"Preview Result" mode) or with `source-over` at `globalAlpha = 0.6` (the
"Editing Mask" red-overlay mode).  Only the display canvas is written. -/
def renderCanvas (manualMaskPreview : Bool) (c : CanvasState) : CanvasState :=
  let withBase := drawSourceOver c.display.clearAll c.base
  { c with
    display :=
      if manualMaskPreview then drawDestOut withBase c.mask
      else drawOverlay60 withBase c.mask }

-- The AI removal collaborator ----------------------------------------------

/-- Failure of the remote generate-content call (network, auth, quota, ...);
`removeBackgroundWithAi` catches, logs and rethrows it. -/
inductive ServiceFailure where
  | thrown (message : String)
deriving DecidableEq

/-- `inlineData` of a response part; an absent or empty `data` or
`mimeType` string is falsy in the source and modelled as `""`. -/
structure InlineData where
  mimeType : String
  data : String
deriving DecidableEq

/-- One part of a generate-content response. -/
structure ResponsePart where
  inlineData : Option InlineData
  text : Option String
deriving DecidableEq

/-- `candidates?.[0]?.content?.parts` of the response, flattened: the parts
of the first candidate's content, or `[]` when any link of the optional
chain is absent (in which case the source's scan loop is skipped). -/
structure GenResponse where
  firstCandidateParts : Option (List ResponsePart)
deriving DecidableEq

/-- The scan loop of `removeBackgroundWithAi` (geminiService.ts lines
30-39): the first part carrying `inlineData` with a non-empty `data`
payload yields a data URL, with the mime type defaulting to `image/png`
when absent. -/
def firstImagePayload : List ResponsePart → Option String
  | [] => none
  | p :: rest =>
    match p.inlineData with
    | some idata =>
        if idata.data = "" then firstImagePayload rest
        else
          some ("data:" ++
            (if idata.mimeType = "" then "image/png" else idata.mimeType) ++
            ";base64," ++ idata.data)
    | none => firstImagePayload rest

/-- `removeBackgroundWithAi` (geminiService.ts lines 9-46), with the awaited
`generateContent` call abstracted as its outcome: a thrown error is caught
and rethrown, a returned response is scanned for the first inline image
payload, and a response with none yields `null`. -/
def removeBackgroundWithAi (outcome : Except ServiceFailure GenResponse) :
    Except ServiceFailure (Option String) :=
  match outcome with
  | .error e => .error e
  | .ok resp => .ok (firstImagePayload (resp.firstCandidateParts.getD []))

/-- `handleAiRemove` (App.tsx lines 56-70) together with the AI-override
effect it triggers: only a successful non-empty result sets
`processedImageOverride` (whose decoding is abstracted as `decode`) and
reaches the session; a thrown failure is alerted and a `null` result is
ignored, leaving the session untouched. -/
def handleAiRemove (decode : String → Buffer)
    (scale : Buffer → Nat → Nat → Buffer)
    (outcome : Except ServiceFailure GenResponse) (s : Session) : Session :=
  match removeBackgroundWithAi outcome with
  | .error _ => s
  | .ok none => s
  | .ok (some url) =>
      if url = "" then s else aiOverrideStep scale (some (decode url)) s

-- List helpers -------------------------------------------------------------

theorem getLast?_ne_nil {α : Type} {l : List α} (h : l ≠ []) :
    ∃ x, l.getLast? = some x := by
  cases l with
  | nil => exact absurd rfl h
  | cons a t => exact ⟨(a :: t).getLast (by simp), List.getLast?_eq_getLast _ _⟩

theorem getLast?_tail_of_two {α : Type} {l : List α} (h : 2 ≤ l.length) :
    l.tail.getLast? = l.getLast? := by
  cases l with
  | nil => simp at h
  | cons a t =>
    cases t with
    | nil => simp at h
    | cons b u => simp [List.getLast?_cons_cons]

theorem tail_concat_of_ne_nil {α : Type} {l : List α} (x : α) (h : l ≠ []) :
    (l ++ [x]).tail = l.tail ++ [x] := by
  cases l with
  | nil => exact absurd rfl h
  | cons a t => simp

-- Session invariant --------------------------------------------------------

/-- The history invariant of a session: the history is non-empty, holds at
most 20 snapshots, and its last (topmost) entry is the current base. -/
def SessionInv (s : Session) : Prop :=
  0 < s.history.length ∧ s.history.length ≤ 20 ∧
    s.history.getLast? = some s.base

theorem sessionInv_init (orig : Buffer) : SessionInv (initSession orig) := by
  refine ⟨?_, ?_, ?_⟩ <;> simp [initSession, SessionInv]

theorem sessionInv_paint {s : Session} (m : Buffer) (h : SessionInv s) :
    SessionInv { s with mask := m } := h

theorem sessionInv_autoRemove {s : Session}
    (seg : Nat → Nat → Buffer → Buffer) (tolerance smoothing : Nat)
    (orig : Buffer) (t : Nat) (h : SessionInv s) :
    SessionInv (autoRemoveStep seg tolerance smoothing orig t s) := by
  by_cases ht : t = 0
  · simpa [autoRemoveStep, ht] using h
  · refine ⟨?_, ?_, ?_⟩ <;> simp [autoRemoveStep, ht]

theorem sessionInv_undo {s : Session} (t : Nat) (h : SessionInv s) :
    SessionInv (undoStep t s) := by
  by_cases ht : t = 0
  · simpa [undoStep, ht] using h
  · by_cases hl : 1 < s.history.length
    · have hlen : s.history.dropLast.length = s.history.length - 1 :=
        s.history.length_dropLast
      have hne : s.history.dropLast ≠ [] := by
        intro hc
        rw [hc] at hlen
        simp at hlen
        omega
      obtain ⟨x, hx⟩ := getLast?_ne_nil hne
      refine ⟨?_, ?_, ?_⟩
      · simp [undoStep, ht, hl, List.length_dropLast]
      · simp [undoStep, ht, hl, List.length_dropLast]
        have := h.2.1
        omega
      · simp [undoStep, ht, hl, hx]
    · simpa [undoStep, ht, hl] using h

theorem manualApplyStep_def {t : Nat} (ht : t ≠ 0) (s : Session) :
    manualApplyStep t s =
      { base := drawDestOut s.base s.mask
        mask := s.mask.clearAll
        history :=
          if 20 < s.history.length + 1 then
            (s.history ++ [drawDestOut s.base s.mask]).tail
          else s.history ++ [drawDestOut s.base s.mask] } := by
  simp [manualApplyStep, ht]

theorem sessionInv_commit {s : Session} (t : Nat) (h : SessionInv s) :
    SessionInv (manualApplyStep t s) := by
  by_cases ht : t = 0
  · simpa [manualApplyStep, ht] using h
  · rw [manualApplyStep_def ht]
    by_cases hcap : 20 < s.history.length + 1
    · have h2 : 2 ≤ (s.history ++ [drawDestOut s.base s.mask]).length := by
        simp
        omega
      refine ⟨?_, ?_, ?_⟩
      · simp [SessionInv, hcap, List.length_tail]
        omega
      · simp [SessionInv, hcap, List.length_tail]
        have := h.2.1
        omega
      · simp only [SessionInv, if_pos hcap]
        rw [getLast?_tail_of_two h2]
        simp
    · refine ⟨?_, ?_, ?_⟩
      · simp [SessionInv, hcap]
      · simp [SessionInv, hcap]
        omega
      · simp [SessionInv, hcap]

theorem sessionInv_aiOverride {s : Session}
    (scale : Buffer → Nat → Nat → Buffer) (o : Option Buffer)
    (h : SessionInv s) : SessionInv (aiOverrideStep scale o s) := by
  cases o with
  | none => simpa [aiOverrideStep] using h
  | some img => refine ⟨?_, ?_, ?_⟩ <;> simp [aiOverrideStep]

theorem commit_last {t : Nat} (ht : t ≠ 0) (s : Session) :
    (manualApplyStep t s).history.getLast? =
      some (manualApplyStep t s).base := by
  rw [manualApplyStep_def ht]
  by_cases hcap : 20 < s.history.length + 1
  · have h2 : 2 ≤ (s.history ++ [drawDestOut s.base s.mask]).length := by
      simp
      omega
    simp only [if_pos hcap]
    rw [getLast?_tail_of_two h2]
    simp
  · simp [hcap]

theorem commit_history_below {t : Nat} (ht : t ≠ 0) (s : Session)
    (h : s.history.length < 20) :
    (manualApplyStep t s).history =
      s.history ++ [(manualApplyStep t s).base] := by
  rw [manualApplyStep_def ht]
  have : ¬20 < s.history.length + 1 := by omega
  simp [this]

theorem commit_history_full {t : Nat} (ht : t ≠ 0) (s : Session)
    (h : s.history.length = 20) :
    (manualApplyStep t s).history =
      s.history.tail ++ [(manualApplyStep t s).base] := by
  rw [manualApplyStep_def ht]
  have hcap : 20 < s.history.length + 1 := by omega
  have hne : s.history ≠ [] := by
    intro hc
    rw [hc] at h
    simp at h
  simp [hcap, tail_concat_of_ne_nil _ hne]

theorem commit_length {t : Nat} (ht : t ≠ 0) (s : Session)
    (h : s.history.length ≤ 20) :
    (manualApplyStep t s).history.length =
      min (s.history.length + 1) 20 := by
  rw [manualApplyStep_def ht]
  by_cases hcap : 20 < s.history.length + 1
  · simp only [if_pos hcap, List.length_tail, List.length_append,
      List.length_singleton]
    omega
  · simp only [if_neg hcap, List.length_append, List.length_singleton]
    omega

/-- 25 consecutive commits, as in the spec's capacity scenario. -/
theorem commit_iterate_length (n : Nat) :
    ∀ s : Session, SessionInv s →
      ((fun s => manualApplyStep 1 s)^[n] s).history.length =
        min (s.history.length + n) 20 := by
  induction n with
  | zero =>
    intro s h
    obtain ⟨h1, h2, h3⟩ := h
    simp
    omega
  | succ n ih =>
    intro s h
    rw [Function.iterate_succ_apply]
    rw [ih _ (sessionInv_commit 1 h)]
    rw [commit_length (by omega) s h.2.1]
    omega

-- Per-pixel compositing lemmas ---------------------------------------------

theorem destOutPix_alpha (d m : Rgba) :
    (destOutPix d m).a = d.a * (255 - m.a) / 255 := by
  unfold destOutPix
  by_cases h : d.a * (255 - m.a) / 255 = 0 <;> simp [h, Rgba.clear]

theorem destOutPix_alpha_opaque (d m : Rgba) (h : m.a = 255) :
    (destOutPix d m).a = 0 := by
  rw [destOutPix_alpha, h]
  simp

theorem sourceOverPix_clear_alpha (p : Rgba) :
    (sourceOverPix p Rgba.clear).a = p.a := by
  unfold sourceOverPix
  by_cases h : p.a = 0 <;> simp [Rgba.clear, h]

theorem sourceOverPix_transparent_src (p d : Rgba) (h : p.a = 0) :
    (sourceOverPix p d).a = d.a := by
  unfold sourceOverPix
  have h255 : d.a * (255 - p.a) / 255 = d.a := by
    rw [h]
    simp [Nat.mul_div_cancel]
  by_cases hd : d.a = 0 <;> simp [h, h255, Rgba.clear, hd]

theorem scaleAlpha60_zero (p : Rgba) (h : p.a = 0) :
    (scaleAlpha60 p).a = 0 := by
  simp [scaleAlpha60, h]

-- Concrete fixtures used by witnesses and counterexamples -------------------

/-- A 1-by-1 opaque image. -/
def bufA : Buffer := ⟨1, 1, [⟨10, 20, 30, 255⟩]⟩

/-- A second 1-by-1 opaque image. -/
def bufB : Buffer := ⟨1, 1, [⟨40, 50, 60, 255⟩]⟩

/-- A 2-by-2 opaque image, dimensioned unlike `bufA`. -/
def bufImg2 : Buffer :=
  ⟨2, 2, [⟨1, 1, 1, 255⟩, ⟨2, 2, 2, 255⟩, ⟨3, 3, 3, 255⟩, ⟨4, 4, 4, 255⟩]⟩

/-- A 1-by-1 mask with one fully opaque red stamp. -/
def maskFull : Buffer := ⟨1, 1, [⟨255, 0, 0, 255⟩]⟩

/-- A 1-by-1 mask with a half-transparent red pixel. -/
def maskHalf : Buffer := ⟨1, 1, [⟨255, 0, 0, 128⟩]⟩

/-- A 1-by-1 blank (fully transparent) mask. -/
def maskEmpty1 : Buffer := ⟨1, 1, [⟨0, 0, 0, 0⟩]⟩

theorem sessionInv_reachable {s : Session} (h : Reachable s) :
    SessionInv s := by
  induction h with
  | init orig => exact sessionInv_init orig
  | step _ hstep ih =>
    cases hstep with
    | paint m => exact sessionInv_paint m ih
    | autoRemove seg tol sm orig t =>
        exact sessionInv_autoRemove seg tol sm orig t ih
    | undo t => exact sessionInv_undo t ih
    | commit t => exact sessionInv_commit t ih
    | aiOverride scale o => exact sessionInv_aiOverride scale o ih

-- Claim theorems ------------------------------------------------------------

/-- C10: each of the three triggered operations (auto-segmentation, undo and
mask commit) is guarded by its trigger counter: with the trigger at 0 — the
initial mount state — the operation leaves the session (base layer, mask
layer and history) entirely unchanged. -/
theorem triggers_at_zero_are_noops (seg : Nat → Nat → Buffer → Buffer)
    (tolerance smoothing : Nat) (orig : Buffer) (s : Session) :
    autoRemoveStep seg tolerance smoothing orig 0 s = s ∧
    undoStep 0 s = s ∧
    manualApplyStep 0 s = s :=
  ⟨rfl, rfl, rfl⟩

/-- C7: with a non-zero trigger, undo pops the topmost history snapshot and
restores the base from the new top whenever the history has more than one
entry; with exactly one entry it is a no-op; and it never modifies the
mask layer. -/
theorem undo_spec (t : Nat) (s : Session) (ht : t ≠ 0) :
    (1 < s.history.length →
      (undoStep t s).history = s.history.dropLast ∧
      (undoStep t s).history.getLast? = some (undoStep t s).base) ∧
    (s.history.length = 1 → undoStep t s = s) ∧
    (undoStep t s).mask = s.mask := by
  refine ⟨?_, ?_, ?_⟩
  · intro hl
    have hlen : s.history.dropLast.length = s.history.length - 1 :=
      s.history.length_dropLast
    have hne : s.history.dropLast ≠ [] := by
      intro hc
      rw [hc] at hlen
      simp at hlen
      omega
    obtain ⟨x, hx⟩ := getLast?_ne_nil hne
    constructor
    · simp [undoStep, ht, hl]
    · simp [undoStep, ht, hl, hx]
  · intro hl
    have : ¬1 < s.history.length := by omega
    simp [undoStep, ht, this]
  · by_cases hl : 1 < s.history.length <;> simp [undoStep, ht, hl]

/-- Concrete witness session for the undo claim: a load followed by one
committed erase, leaving two history entries created by the real steps. -/
def sessionUndoW : Session :=
  manualApplyStep 1 { initSession bufA with mask := maskFull }

theorem undo_spec_witness :
    (1 < sessionUndoW.history.length) ∧
    (undoStep 1 sessionUndoW).history = sessionUndoW.history.dropLast ∧
    (undoStep 1 sessionUndoW).mask = sessionUndoW.mask :=
  ⟨by decide,
   ((undo_spec 1 sessionUndoW (by decide)).1 (by decide)).1,
   (undo_spec 1 sessionUndoW (by decide)).2.2⟩

/-- C5: at every reachable session state the history holds at most 20
snapshots and its last entry equals the current (most recently committed)
base; a commit below capacity appends the new snapshot without eviction, a
commit at capacity evicts exactly the oldest entry and keeps the newest;
and from a freshly loaded state (history of one entry) 25 commits leave
exactly 20 snapshots. -/
theorem history_bounded_fifo (s : Session) (h : Reachable s) :
    s.history.length ≤ 20 ∧
    s.history.getLast? = some s.base ∧
    (∀ t, t ≠ 0 → s.history.length < 20 →
      (manualApplyStep t s).history =
        s.history ++ [(manualApplyStep t s).base]) ∧
    (∀ t, t ≠ 0 → s.history.length = 20 →
      (manualApplyStep t s).history =
        s.history.tail ++ [(manualApplyStep t s).base]) ∧
    (s.history.length = 1 →
      ((fun s => manualApplyStep 1 s)^[25] s).history.length = 20) := by
  obtain ⟨h1, h2, h3⟩ := sessionInv_reachable h
  refine ⟨h2, h3, ?_, ?_, ?_⟩
  · intro t ht hlt
    exact commit_history_below ht s hlt
  · intro t ht heq
    exact commit_history_full ht s heq
  · intro hone
    rw [commit_iterate_length 25 s ⟨h1, h2, h3⟩, hone]
    omega

theorem history_bounded_fifo_witness :
    (initSession bufA).history.length ≤ 20 ∧
    (initSession bufA).history.getLast? = some (initSession bufA).base ∧
    ((fun s => manualApplyStep 1 s)^[25] (initSession bufA)).history.length
      = 20 :=
  ⟨(history_bounded_fifo (initSession bufA) (Reachable.init bufA)).1,
   (history_bounded_fifo (initSession bufA) (Reachable.init bufA)).2.1,
   (history_bounded_fifo (initSession bufA) (Reachable.init bufA)).2.2.2.2
     (by decide)⟩

/-- C6: at any reachable session state with a non-empty painted mask,
committing the mask and then immediately undoing restores the base layer
pixel-for-pixel to its pre-commit state, and the undo leaves the mask
state (the cleared mask produced by the commit) unchanged. -/
theorem commit_then_undo_restores (s : Session) (tc tu : Nat)
    (h : Reachable s) (hmask : s.mask.isBlank = false)
    (htc : tc ≠ 0) (htu : tu ≠ 0) :
    (undoStep tu (manualApplyStep tc s)).base = s.base ∧
    (undoStep tu (manualApplyStep tc s)).mask =
      (manualApplyStep tc s).mask := by
  obtain ⟨h1, h2, h3⟩ := sessionInv_reachable h
  constructor
  · by_cases hcap : s.history.length < 20
    · have hh : (manualApplyStep tc s).history =
          s.history ++ [(manualApplyStep tc s).base] :=
        commit_history_below htc s hcap
      have hlen : 1 < (manualApplyStep tc s).history.length := by
        rw [hh]
        simp
        omega
      have hne : s.history ≠ [] := by
        intro hc
        rw [hc] at h1
        simp at h1
      simp only [undoStep, if_neg htu, if_pos hlen, hh,
        List.dropLast_concat]
      simp [h3, h1]
    · have heq : s.history.length = 20 := by omega
      have hh : (manualApplyStep tc s).history =
          s.history.tail ++ [(manualApplyStep tc s).base] :=
        commit_history_full htc s heq
      have hlen : 1 < (manualApplyStep tc s).history.length := by
        rw [hh]
        simp [List.length_tail]
        omega
      have htail : s.history.tail.getLast? = some s.base := by
        rw [getLast?_tail_of_two (by omega)]
        exact h3
      simp only [undoStep, if_neg htu, if_pos hlen, hh,
        List.dropLast_concat]
      have hgt : 1 < s.history.length := by omega
      simp [htail, hgt]
  · by_cases hl : 1 < (manualApplyStep tc s).history.length <;>
      simp [undoStep, htu, hl]

/-- Concrete witness session for commit-undo: a load followed by one
painted stroke. -/
def sessionCommitUndoW : Session := { initSession bufA with mask := maskFull }

theorem commit_then_undo_restores_witness :
    (undoStep 1 (manualApplyStep 1 sessionCommitUndoW)).base =
      sessionCommitUndoW.base ∧
    (undoStep 1 (manualApplyStep 1 sessionCommitUndoW)).mask =
      (manualApplyStep 1 sessionCommitUndoW).mask :=
  commit_then_undo_restores sessionCommitUndoW 1 1
    (Reachable.step (Reachable.init bufA) (Step.paint (initSession bufA) maskFull))
    (by decide) (by decide) (by decide)

/-- Concrete session whose mask is blank, for the commit counterexample. -/
def sessionEmptyMask : Session :=
  { base := bufA, mask := maskEmpty1, history := [bufA] }

/-- C1, counterexample: the manual-apply effect has no empty-mask guard —
triggering a commit with a blank mask still pushes a (duplicate) snapshot
onto the history, so it is not a history-preserving no-op; and under a
half-transparent mask pixel the `destination-out` commit leaves the base
alpha at 127, not 0, so only fully opaque paint zeroes the base alpha. -/
theorem commit_empty_mask_still_pushes :
    sessionEmptyMask.mask.isBlank = true ∧
    (manualApplyStep 1 sessionEmptyMask).history.length =
      sessionEmptyMask.history.length + 1 ∧
    ((manualApplyStep 1
        { base := bufA, mask := maskHalf, history := [bufA] }).base.pixAt
      0).a = 127 := by
  decide

/-- C1 (amended): with a non-zero trigger, commit composites the mask onto
the base with `destination-out` (every pixel under a fully opaque mask
stamp gets alpha 0), clears the mask, and pushes the new base snapshot onto
the history — evicting the oldest entry when over capacity — and it does
all of this even when the mask is blank, pushing a snapshot identical to
the current base rather than skipping the push. -/
theorem commitMask_spec (t : Nat) (s : Session) (ht : t ≠ 0)
    (hcap : s.history.length ≤ 20) :
    (∀ i, i < s.base.data.length → (s.mask.pixAt i).a = 255 →
      ((manualApplyStep t s).base.pixAt i).a = 0) ∧
    (manualApplyStep t s).mask.isBlank = true ∧
    (manualApplyStep t s).history.getLast? =
      some (manualApplyStep t s).base ∧
    (manualApplyStep t s).history.length ≤ 20 ∧
    (s.history.length < 20 →
      (manualApplyStep t s).history =
        s.history ++ [(manualApplyStep t s).base]) ∧
    (s.history.length = 20 →
      (manualApplyStep t s).history =
        s.history.tail ++ [(manualApplyStep t s).base]) := by
  refine ⟨?_, ?_, commit_last ht s, ?_, commit_history_below ht s,
    commit_history_full ht s⟩
  · intro i hi hm
    have hbase : (manualApplyStep t s).base = drawDestOut s.base s.mask := by
      rw [manualApplyStep_def ht]
    rw [hbase, drawDestOut, blendWith_pixAt _ _ _ _ hi]
    exact destOutPix_alpha_opaque _ _ hm
  · have hmask : (manualApplyStep t s).mask = s.mask.clearAll := by
      rw [manualApplyStep_def ht]
    rw [hmask]
    exact clearAll_isBlank s.mask
  · rw [commit_length ht s hcap]
    omega

/-- Concrete session with a painted mask, for the commit witness. -/
def sessionPainted : Session :=
  { base := bufA, mask := maskFull, history := [bufA] }

theorem commitMask_spec_witness :
    ((manualApplyStep 1 sessionPainted).base.pixAt 0).a = 0 ∧
    (manualApplyStep 1 sessionPainted).mask.isBlank = true ∧
    (manualApplyStep 1 sessionPainted).history =
      sessionPainted.history ++ [(manualApplyStep 1 sessionPainted).base] :=
  ⟨(commitMask_spec 1 sessionPainted (by decide) (by decide)).1 0
      (by decide) (by decide),
   (commitMask_spec 1 sessionPainted (by decide) (by decide)).2.1,
   (commitMask_spec 1 sessionPainted (by decide) (by decide)).2.2.2.2.1
      (by decide)⟩

/-- Concrete session whose history has two entries, for the
auto-segmentation counterexample. -/
def sessionTwoHistory : Session :=
  { base := bufB, mask := maskEmpty1, history := [bufA, bufB] }

/-- C2, counterexample: the auto-remove effect replaces the whole history
with the single new snapshot instead of pushing it — the two entries
present beforehand are discarded, so the claimed push does not happen. -/
theorem autoRemove_resets_history :
    (autoRemoveStep (fun _ _ b => b) 15 0 bufA 1 sessionTwoHistory).history ≠
      sessionTwoHistory.history ++
        [(autoRemoveStep (fun _ _ b => b) 15 0 bufA 1
            sessionTwoHistory).base] ∧
    (autoRemoveStep (fun _ _ b => b) 15 0 bufA 1
        sessionTwoHistory).history.length = 1 := by
  decide

/-- C2 (amended): with a non-zero trigger, auto-segmentation re-derives the
base by clearing it, re-drawing the original source image and applying the
segmentation algorithm (with the current tolerance and smoothing) to that
fresh copy — so its result depends only on the base's geometry, never on
the already-processed pixel content — clears the mask, and *resets* the
history to the single snapshot of the result (it does not push onto the
existing history). -/
theorem runAutoSegmentation_spec (seg : Nat → Nat → Buffer → Buffer)
    (tolerance smoothing t : Nat) (orig : Buffer) (s : Session)
    (ht : t ≠ 0) :
    (autoRemoveStep seg tolerance smoothing orig t s).base =
      seg tolerance smoothing (drawSourceOver s.base.clearAll orig) ∧
    (autoRemoveStep seg tolerance smoothing orig t s).mask.isBlank = true ∧
    (autoRemoveStep seg tolerance smoothing orig t s).history =
      [(autoRemoveStep seg tolerance smoothing orig t s).base] ∧
    (∀ s₂ : Session, s₂.base.width = s.base.width →
      s₂.base.height = s.base.height →
      s₂.base.data.length = s.base.data.length →
      (autoRemoveStep seg tolerance smoothing orig t s₂).base =
        (autoRemoveStep seg tolerance smoothing orig t s).base) := by
  refine ⟨by simp [autoRemoveStep, ht], ?_, by simp [autoRemoveStep, ht], ?_⟩
  · simp [autoRemoveStep, ht, clearAll_isBlank]
  · intro s₂ hw hh hl
    have hclear : s₂.base.clearAll = s.base.clearAll := by
      unfold Buffer.clearAll
      cases hb : s.base
      cases hb₂ : s₂.base
      simp_all
    simp [autoRemoveStep, ht, hclear]

theorem runAutoSegmentation_spec_witness :
    (autoRemoveStep (fun _ _ b => b) 15 0 bufA 1 sessionTwoHistory).mask.isBlank
      = true ∧
    (autoRemoveStep (fun _ _ b => b) 15 0 bufA 1 sessionTwoHistory).history =
      [(autoRemoveStep (fun _ _ b => b) 15 0 bufA 1 sessionTwoHistory).base] :=
  ⟨(runAutoSegmentation_spec (fun _ _ b => b) 15 0 1 bufA sessionTwoHistory
      (by decide)).2.1,
   (runAutoSegmentation_spec (fun _ _ b => b) 15 0 1 bufA sessionTwoHistory
      (by decide)).2.2.1⟩

/-- Concrete 1-by-1 session, for the AI-replacement counterexample. -/
def sessionSmall : Session :=
  { base := bufA, mask := maskEmpty1, history := [bufA] }

/-- C3, counterexample: applying an AI replacement image whose dimensions
differ from the current base leaves the base buffer at its *old*
dimensions (the incoming image is scaled into it); the base is not resized
to match the incoming image. -/
theorem aiOverride_keeps_old_dimensions :
    bufImg2.width ≠ sessionSmall.base.width ∧
    (aiOverrideStep scaleNearest (some bufImg2) sessionSmall).base.width ≠
      bufImg2.width ∧
    (aiOverrideStep scaleNearest (some bufImg2) sessionSmall).base.width =
      sessionSmall.base.width := by
  decide

/-- C3 (amended): applying an AI replacement clears the base buffer and
draws the incoming image scaled to the base's *current* dimensions (which
are preserved even when the incoming image's dimensions differ), clears
the mask, and resets the history to the single snapshot of the resulting
base. -/
theorem applyAiReplacement_spec (scale : Buffer → Nat → Nat → Buffer)
    (img : Buffer) (s : Session) :
    (aiOverrideStep scale (some img) s).base.width = s.base.width ∧
    (aiOverrideStep scale (some img) s).base.height = s.base.height ∧
    (aiOverrideStep scale (some img) s).base =
      drawSourceOver s.base.clearAll (scale img s.base.width s.base.height) ∧
    (aiOverrideStep scale (some img) s).mask.isBlank = true ∧
    (aiOverrideStep scale (some img) s).history =
      [(aiOverrideStep scale (some img) s).base] :=
  ⟨rfl, rfl, rfl, by simp [aiOverrideStep, clearAll_isBlank], rfl⟩

/-- Concrete display state whose mask pixel is half-transparent, for the
compositing counterexample. -/
def canvasHalfMask : CanvasState :=
  { display := ⟨1, 1, [Rgba.clear]⟩
    base := ⟨1, 1, [⟨9, 9, 9, 255⟩]⟩
    mask := maskHalf }

/-- C4, counterexample: in PreviewResult mode the `destination-out`
composite is proportional, not a binary presence test — under a mask pixel
with alpha 128 the output alpha is 127, not 0, even though the mask alpha
is non-zero. -/
theorem preview_alpha_not_binary :
    (canvasHalfMask.mask.pixAt 0).a ≠ 0 ∧
    ((renderCanvas true canvasHalfMask).display.pixAt 0).a ≠ 0 ∧
    ((renderCanvas true canvasHalfMask).display.pixAt 0).a = 127 := by
  decide

/-- C4 (amended): in PreviewResult mode the composite reduces each output
alpha proportionally to the mask alpha (`destination-out`):
`out = base * (255 - mask) / 255` — in particular it zeroes the alpha
wherever the mask is fully opaque (not wherever it is merely non-zero);
and in EditingMask mode the mask is blended as a `source-over` overlay at
a fixed 60% opacity, never changing the alpha of pixels the mask does not
cover. -/
theorem composite_modes_spec (c : CanvasState) (i : Nat)
    (hb : c.base.data.length = c.display.data.length)
    (hm : c.mask.data.length = c.display.data.length)
    (hi : i < c.display.data.length) :
    ((renderCanvas true c).display.pixAt i).a =
      (c.base.pixAt i).a * (255 - (c.mask.pixAt i).a) / 255 ∧
    ((c.mask.pixAt i).a = 255 →
      ((renderCanvas true c).display.pixAt i).a = 0) ∧
    ((c.mask.pixAt i).a = 0 →
      ((renderCanvas false c).display.pixAt i).a = (c.base.pixAt i).a) ∧
    (renderCanvas false c).display.pixAt i =
      sourceOverPix (scaleAlpha60 (c.mask.pixAt i))
        (sourceOverPix (c.base.pixAt i) Rgba.clear) := by
  have hi' : i < c.display.clearAll.data.length := by
    rw [clearAll_length]
    exact hi
  have hwb : (drawSourceOver c.display.clearAll c.base).pixAt i =
      sourceOverPix (c.base.pixAt i) Rgba.clear := by
    rw [drawSourceOver, blendWith_pixAt _ _ _ _ hi', clearAll_pixAt _ _ hi]
  have hiw : i < (drawSourceOver c.display.clearAll c.base).data.length := by
    rw [drawSourceOver, blendWith_length, clearAll_length]
    exact hi
  have hprev : (renderCanvas true c).display.pixAt i =
      destOutPix ((drawSourceOver c.display.clearAll c.base).pixAt i)
        (c.mask.pixAt i) := by
    show (drawDestOut (drawSourceOver c.display.clearAll c.base)
        c.mask).pixAt i = _
    rw [drawDestOut, blendWith_pixAt _ _ _ _ hiw]
  have hedit : (renderCanvas false c).display.pixAt i =
      sourceOverPix (scaleAlpha60 (c.mask.pixAt i))
        ((drawSourceOver c.display.clearAll c.base).pixAt i) := by
    show (drawOverlay60 (drawSourceOver c.display.clearAll c.base)
        c.mask).pixAt i = _
    rw [drawOverlay60, blendWith_pixAt _ _ _ _ hiw]
  refine ⟨?_, ?_, ?_, ?_⟩
  · rw [hprev, destOutPix_alpha, hwb, sourceOverPix_clear_alpha]
  · intro h255
    rw [hprev]
    exact destOutPix_alpha_opaque _ _ h255
  · intro h0
    rw [hedit, sourceOverPix_transparent_src _ _ (scaleAlpha60_zero _ h0),
      hwb, sourceOverPix_clear_alpha]
  · rw [hedit, hwb]

/-- Concrete display state with a blank mask, for the compositing witness. -/
def canvasNoMask : CanvasState :=
  { display := ⟨1, 1, [Rgba.clear]⟩
    base := bufA
    mask := maskEmpty1 }

theorem composite_modes_spec_witness :
    ((renderCanvas true canvasNoMask).display.pixAt 0).a =
      (canvasNoMask.base.pixAt 0).a *
        (255 - (canvasNoMask.mask.pixAt 0).a) / 255 ∧
    ((renderCanvas false canvasNoMask).display.pixAt 0).a =
      (canvasNoMask.base.pixAt 0).a :=
  ⟨(composite_modes_spec canvasNoMask 0 (by decide) (by decide)
      (by decide)).1,
   (composite_modes_spec canvasNoMask 0 (by decide) (by decide)
      (by decide)).2.2.1 (by decide)⟩

theorem renderCanvas_display_length (p : Bool) (c : CanvasState) :
    (renderCanvas p c).display.data.length = c.display.data.length := by
  cases p <;>
    simp [renderCanvas, drawDestOut, drawOverlay60, drawSourceOver,
      blendWith_length, clearAll_length]

theorem clearAll_congr {b₁ b₂ : Buffer} (hw : b₁.width = b₂.width)
    (hh : b₁.height = b₂.height) (hl : b₁.data.length = b₂.data.length) :
    b₁.clearAll = b₂.clearAll := by
  unfold Buffer.clearAll
  cases b₁
  cases b₂
  simp_all

/-- C8: `renderCanvas` reads the base and mask layers but never writes
them — only the display buffer is produced — and it is idempotent: running
it again on its own result yields the identical state, so any number of
invocations with identical inputs yield the identical output. -/
theorem renderCanvas_pure (p : Bool) (c : CanvasState) :
    (renderCanvas p c).base = c.base ∧
    (renderCanvas p c).mask = c.mask ∧
    renderCanvas p (renderCanvas p c) = renderCanvas p c := by
  refine ⟨rfl, rfl, ?_⟩
  have hw : (renderCanvas p c).display.width = c.display.width := by
    cases p <;> rfl
  have hh : (renderCanvas p c).display.height = c.display.height := by
    cases p <;> rfl
  have hc : (renderCanvas p c).display.clearAll = c.display.clearAll :=
    clearAll_congr hw hh (renderCanvas_display_length p c)
  have hstep : renderCanvas p (renderCanvas p c) =
      { renderCanvas p c with display :=
          if p then
            (drawDestOut
              (drawSourceOver (renderCanvas p c).display.clearAll c.base)
              c.mask)
          else
            (drawOverlay60
              (drawSourceOver (renderCanvas p c).display.clearAll c.base)
              c.mask) } := rfl
  rw [hstep, hc]
  cases p <;> rfl

theorem firstImagePayload_eq_none_iff (parts : List ResponsePart) :
    firstImagePayload parts = none ↔
      ∀ p ∈ parts, ∀ idata, p.inlineData = some idata → idata.data = "" := by
  induction parts with
  | nil => simp [firstImagePayload]
  | cons p rest ih =>
    cases hpd : p.inlineData with
    | none => simp [firstImagePayload, hpd, ih, List.forall_mem_cons]
    | some idata =>
      by_cases hd : idata.data = ""
      · simp [firstImagePayload, hpd, hd, ih, List.forall_mem_cons]
      · simp [firstImagePayload, hpd, hd, List.forall_mem_cons]

/-- C9: the AI removal collaborator yields either a replacement encoded
image or a failure — a response in which no part carries a non-empty
inline image payload is mapped to the `none` (null) failure result, and a
thrown service error is rethrown — and on either kind of failure the
session (base, mask and history) is left completely unchanged. -/
theorem aiFailure_leaves_session_unchanged (decode : String → Buffer)
    (scale : Buffer → Nat → Nat → Buffer) (e : ServiceFailure)
    (resp : GenResponse) (s : Session)
    (h : firstImagePayload (resp.firstCandidateParts.getD []) = none) :
    removeBackgroundWithAi (Except.ok resp) = Except.ok none ∧
    removeBackgroundWithAi (Except.error e) = Except.error e ∧
    handleAiRemove decode scale (Except.ok resp) s = s ∧
    handleAiRemove decode scale (Except.error e) s = s ∧
    (firstImagePayload (resp.firstCandidateParts.getD []) = none ↔
      ∀ p ∈ resp.firstCandidateParts.getD [], ∀ idata,
        p.inlineData = some idata → idata.data = "") := by
  refine ⟨by simp [removeBackgroundWithAi, h], rfl, ?_, rfl,
    firstImagePayload_eq_none_iff _⟩
  simp [handleAiRemove, removeBackgroundWithAi, h]

/-- A response with parts but no usable inline image payload. -/
def respNoImage : GenResponse :=
  ⟨some [⟨none, some "cannot produce an image"⟩,
         ⟨some ⟨"image/png", ""⟩, none⟩]⟩

theorem aiFailure_leaves_session_unchanged_witness :
    handleAiRemove (fun _ => bufA) (fun b _ _ => b)
      (Except.ok respNoImage) sessionSmall = sessionSmall ∧
    handleAiRemove (fun _ => bufA) (fun b _ _ => b)
      (Except.error (ServiceFailure.thrown "quota")) sessionSmall =
        sessionSmall :=
  ⟨(aiFailure_leaves_session_unchanged (fun _ => bufA) (fun b _ _ => b)
      (ServiceFailure.thrown "quota") respNoImage sessionSmall rfl).2.2.1,
   (aiFailure_leaves_session_unchanged (fun _ => bufA) (fun b _ _ => b)
      (ServiceFailure.thrown "quota") respNoImage sessionSmall rfl).2.2.2.1⟩
